import Mathlib

/-!
# Verification of the SearchSDK result-transfer wire format

Shallow embedding of `src/KIAConsole/SearchSDK.h` (BioRadKnowItAllWrapper).
The repository contains only the C header: the plugin ABI constants, the
`SearchSDK_Match` struct, the function-pointer typedefs, and the documentation
of the inter-process result-transfer wire format (header lines 44-55).
The encoder/decoder for that wire format live in external components
(KnowItAll and the consuming source application), so they are modelled here
from the header's documented layout and decode contract.

Bytes are modelled as natural numbers below 256, UTF-16 code units as natural
numbers below 2^16, 32-bit integers as naturals below 2^32 and the two
`float64` fields (`matchPercentage`, `componentWeight`) by their 64-bit
little-endian bit patterns (naturals below 2^64): the wire format copies these
eight bytes verbatim and attaches no arithmetic to them.
-/

namespace SearchSDK

/-- `SEARCHSDK_MATCHFLAG_SPECTRALSEARCHRESULT` from SearchSDK.h line 74. -/
def SEARCHSDK_MATCHFLAG_SPECTRALSEARCHRESULT : Nat := 0x00000001

/-- `SEARCHSDK_MATCHFLAG_PEAKSEARCHRESULT` from SearchSDK.h line 75. -/
def SEARCHSDK_MATCHFLAG_PEAKSEARCHRESULT : Nat := 0x00000002

/-- `SEARCHSDK_MATCHFLAG_COMPOSITE` from SearchSDK.h line 76. -/
def SEARCHSDK_MATCHFLAG_COMPOSITE : Nat := 0x00000004

/-- `SEARCHSDK_MATCHFLAG_RESIDUAL` from SearchSDK.h line 77. -/
def SEARCHSDK_MATCHFLAG_RESIDUAL : Nat := 0x00000008

/-- `SEARCHSDK_MATCHFLAG_COMPONENT` from SearchSDK.h line 78. -/
def SEARCHSDK_MATCHFLAG_COMPONENT : Nat := 0x00000010

/-- `SEARCHSDK_MATCHFLAG_LOCKED` from SearchSDK.h line 79. -/
def SEARCHSDK_MATCHFLAG_LOCKED : Nat := 0x00000020

/-- One record of the result-transfer wire format (SearchSDK.h lines 46-51):
match flags (int32 bit field), match percentage (float64, modelled by its
64-bit pattern), mixture component weight (float64, modelled by its 64-bit
pattern) and the record name as UTF-16 code units. -/
structure WireMatch where
  matchFlags : Nat
  matchPercentage : Nat
  componentWeight : Nat
  name : List Nat
  deriving Repr, DecidableEq

/-- Field-width well-formedness of one wire record: the int32 field fits in
32 bits, the float64 bit patterns fit in 64 bits, the name length fits the
int32 `nameCharCount` field, and every name entry is one UTF-16 code unit. -/
def WfWireMatch (r : WireMatch) : Prop :=
  r.matchFlags < 4294967296 ∧ r.matchPercentage < 18446744073709551616 ∧
  r.componentWeight < 18446744073709551616 ∧ r.name.length < 4294967296 ∧
  ∀ c ∈ r.name, c < 65536

instance (r : WireMatch) : Decidable (WfWireMatch r) := by
  unfold WfWireMatch; infer_instance

/-- Well-formedness of a whole result list: the record count fits the int32
`resultCount` field and every record is well-formed. -/
def WfResults (rs : List WireMatch) : Prop :=
  rs.length < 4294967296 ∧ ∀ r ∈ rs, WfWireMatch r

instance (rs : List WireMatch) : Decidable (WfResults rs) := by
  unfold WfResults; infer_instance

/-- Modelled from the spec: little-endian encoding of one 16-bit quantity
(one UTF-16 code unit) into two bytes. The header fixes UTF-16 strings and
tightly packed little-endian fields; the producing encoder itself is in
KnowItAll, not in this repository. -/
def encodeU16 (n : Nat) : List Nat :=
  [n % 256, n / 256 % 256]

/-- Modelled from the spec: little-endian encoding of one 32-bit field into
four bytes, low 16-bit half first. -/
def encodeU32 (n : Nat) : List Nat :=
  encodeU16 n ++ encodeU16 (n / 65536)

/-- Modelled from the spec: little-endian encoding of one 64-bit field
(a float64 bit pattern) into eight bytes, low 32-bit half first. -/
def encodeU64 (n : Nat) : List Nat :=
  encodeU32 n ++ encodeU32 (n / 4294967296)

/-- Modelled from the spec: encoding of a name as `nameCharCount` UTF-16 code
units, two bytes each, with no terminator (SearchSDK.h line 51). -/
def encodeName (name : List Nat) : List Nat :=
  (name.map encodeU16).flatten

/-- Modelled from the spec: encoding of one result record
(SearchSDK.h lines 46-51): int32 match flags, float64 match percentage,
float64 component weight, int32 UTF-16 code-unit count, then the name. -/
def encodeRecord (r : WireMatch) : List Nat :=
  encodeU32 r.matchFlags ++ encodeU64 r.matchPercentage ++
  encodeU64 r.componentWeight ++ encodeU32 r.name.length ++ encodeName r.name

/-- Modelled from the spec: the full transfer buffer (SearchSDK.h lines
44-51): int32 `resultCount` followed by that many records, tightly packed. -/
def encodeResults (rs : List WireMatch) : List Nat :=
  encodeU32 rs.length ++ (rs.map encodeRecord).flatten

/-- Modelled from the spec: bounds-checked read of one 16-bit little-endian
quantity; fails on a buffer shorter than two bytes. -/
def readU16 : List Nat → Option (Nat × List Nat)
  | b0 :: b1 :: rest => some (b0 + b1 * 256, rest)
  | _ => none

/-- Modelled from the spec: bounds-checked read of one 32-bit little-endian
field, low half first. -/
def readU32 (buf : List Nat) : Option (Nat × List Nat) := do
  let (lo, r1) ← readU16 buf
  let (hi, r2) ← readU16 r1
  some (lo + hi * 65536, r2)

/-- Modelled from the spec: bounds-checked read of one 64-bit little-endian
field, low half first. -/
def readU64 (buf : List Nat) : Option (Nat × List Nat) := do
  let (lo, r1) ← readU32 buf
  let (hi, r2) ← readU32 r1
  some (lo + hi * 4294967296, r2)

/-- Modelled from the spec: bounds-checked read of a run of UTF-16 code
units of the given count; fails if the buffer ends early. -/
def readU16s : Nat → List Nat → Option (List Nat × List Nat)
  | 0, buf => some ([], buf)
  | n + 1, buf => do
    let (c, r1) ← readU16 buf
    let (cs, r2) ← readU16s n r1
    some (c :: cs, r2)

/-- Modelled from the spec: the consumer-side decode of one record
(SearchSDK.h lines 46-51 with the defensive bounds-checking the spec
requires of a consumer): read the fixed fields, then exactly
`nameCharCount` UTF-16 code units; any truncation yields `none`. -/
def decodeRecord (buf : List Nat) : Option (WireMatch × List Nat) := do
  let (flags, r1) ← readU32 buf
  let (pct, r2) ← readU64 r1
  let (wt, r3) ← readU64 r2
  let (nameLen, r4) ← readU32 r3
  let (name, r5) ← readU16s nameLen r4
  some (⟨flags, pct, wt, name⟩, r5)

/-- Modelled from the spec: decode of exactly `n` consecutive records. -/
def decodeRecords : Nat → List Nat → Option (List WireMatch × List Nat)
  | 0, buf => some ([], buf)
  | n + 1, buf => do
    let (r, rest) ← decodeRecord buf
    let (rs, rest') ← decodeRecords n rest
    some (r :: rs, rest')

/-- Modelled from the spec: the consumer-side decode of a whole transfer
buffer (SearchSDK.h lines 44-51 and the decode contract): read `resultCount`
and then iterate exactly that many self-describing records, returning the
records and the unconsumed remainder of the buffer. -/
def decodeResults (buf : List Nat) : Option (List WireMatch × List Nat) := do
  let (count, rest) ← readU32 buf
  decodeRecords count rest

/-! ## Round-trip lemmas: decoding an encoded buffer recovers the records -/

theorem readU16_encodeU16 (n : Nat) (rest : List Nat) :
    readU16 (encodeU16 n ++ rest) = some (n % 65536, rest) := by
  simp [encodeU16, readU16]
  omega

theorem readU32_encodeU32 (n : Nat) (rest : List Nat) :
    readU32 (encodeU32 n ++ rest) = some (n % 4294967296, rest) := by
  simp only [readU32, encodeU32, List.append_assoc, readU16_encodeU16,
    Option.bind_eq_bind, Option.some_bind, Option.some.injEq, Prod.mk.injEq,
    and_true]
  omega

theorem readU64_encodeU64 (n : Nat) (rest : List Nat) :
    readU64 (encodeU64 n ++ rest) = some (n % 18446744073709551616, rest) := by
  simp only [readU64, encodeU64, List.append_assoc, readU32_encodeU32,
    Option.bind_eq_bind, Option.some_bind, Option.some.injEq, Prod.mk.injEq,
    and_true]
  omega

theorem encodeName_cons (c : Nat) (cs : List Nat) :
    encodeName (c :: cs) = encodeU16 c ++ encodeName cs := rfl

theorem readU16s_encodeName (name : List Nat) (h : ∀ c ∈ name, c < 65536)
    (rest : List Nat) :
    readU16s name.length (encodeName name ++ rest) = some (name, rest) := by
  induction name with
  | nil => simp [readU16s, encodeName]
  | cons c cs ih =>
    have hc : c < 65536 := h c (by simp)
    have hcs : ∀ x ∈ cs, x < 65536 := fun x hx => h x (by simp [hx])
    simp only [encodeName_cons, List.length_cons, readU16s, List.append_assoc,
      readU16_encodeU16, Option.bind_eq_bind, Option.some_bind, ih hcs,
      Option.some.injEq, Prod.mk.injEq, and_true, List.cons.injEq, true_and]
    omega

theorem encodeRecord_eq (r : WireMatch) :
    encodeRecord r =
      encodeU32 r.matchFlags ++ (encodeU64 r.matchPercentage ++
        (encodeU64 r.componentWeight ++ (encodeU32 r.name.length ++
          encodeName r.name))) := by
  simp [encodeRecord, List.append_assoc]

theorem decodeRecord_encodeRecord (r : WireMatch) (h : WfWireMatch r)
    (rest : List Nat) :
    decodeRecord (encodeRecord r ++ rest) = some (r, rest) := by
  obtain ⟨h1, h2, h3, h4, h5⟩ := h
  simp only [decodeRecord, encodeRecord_eq, List.append_assoc, readU32_encodeU32,
    readU64_encodeU64, Option.bind_eq_bind, Option.some_bind,
    Nat.mod_eq_of_lt h1, Nat.mod_eq_of_lt h2, Nat.mod_eq_of_lt h3,
    Nat.mod_eq_of_lt h4, readU16s_encodeName r.name h5 rest,
    Option.some.injEq, Prod.mk.injEq, and_true]

theorem decodeRecords_encode (rs : List WireMatch) (h : ∀ r ∈ rs, WfWireMatch r)
    (ext : List Nat) :
    decodeRecords rs.length ((rs.map encodeRecord).flatten ++ ext) =
      some (rs, ext) := by
  induction rs with
  | nil => simp [decodeRecords]
  | cons r rs ih =>
    simp only [List.map_cons, List.flatten_cons, List.length_cons,
      decodeRecords, List.append_assoc,
      decodeRecord_encodeRecord r (h r (by simp)), Option.bind_eq_bind,
      Option.some_bind, ih (fun x hx => h x (by simp [hx])),
      Option.some.injEq, Prod.mk.injEq, and_true, List.cons.injEq, true_and]

theorem decodeResults_encodeResults (rs : List WireMatch) (h : WfResults rs)
    (ext : List Nat) :
    decodeResults (encodeResults rs ++ ext) = some (rs, ext) := by
  simp only [decodeResults, encodeResults, List.append_assoc, readU32_encodeU32,
    Option.bind_eq_bind, Option.some_bind, Nat.mod_eq_of_lt h.1]
  exact decodeRecords_encode rs h.2 ext

/-! ## Consumption: a successful read is insensitive to bytes after the
portion it consumed, which pins down how the decoder behaves on truncations -/

/-- A buffer-consuming reader `f` consumes a determined initial portion of
its input: on success, appending extra bytes to the buffer leaves the parsed
value unchanged and lands the extra bytes after the unread remainder. -/
def Consumes {α : Type} (f : List Nat → Option (α × List Nat)) : Prop :=
  ∀ b v rest, f b = some (v, rest) → ∀ ext, f (b ++ ext) = some (v, rest ++ ext)

theorem consumes_pure {α : Type} (v : α) : Consumes (fun b => some (v, b)) := by
  intro b w rest h ext
  simp only [Option.some.injEq, Prod.mk.injEq] at h
  simp [h.1, h.2]

theorem consumes_bind {α β : Type} {f : List Nat → Option (α × List Nat)}
    {g : α → List Nat → Option (β × List Nat)}
    (hf : Consumes f) (hg : ∀ a, Consumes (g a)) :
    Consumes (fun b => (f b).bind (fun p => g p.1 p.2)) := by
  intro b v rest h ext
  cases hfb : f b with
  | none => simp [hfb] at h
  | some p =>
    simp only [hfb, Option.some_bind] at h
    simp only [hf b p.1 p.2 hfb ext, Option.some_bind]
    exact hg p.1 p.2 v rest h ext

theorem readU16_consumes : Consumes readU16 := by
  intro b v rest h ext
  match b with
  | [] => simp [readU16] at h
  | [b0] => simp [readU16] at h
  | b0 :: b1 :: r =>
    simp only [readU16, Option.some.injEq, Prod.mk.injEq] at h
    simp only [List.cons_append, readU16, Option.some.injEq, Prod.mk.injEq]
    exact ⟨h.1, by rw [h.2]⟩

theorem readU32_consumes : Consumes readU32 :=
  consumes_bind readU16_consumes fun lo =>
    consumes_bind readU16_consumes fun hi => consumes_pure (lo + hi * 65536)

theorem readU64_consumes : Consumes readU64 :=
  consumes_bind readU32_consumes fun lo =>
    consumes_bind readU32_consumes fun hi =>
      consumes_pure (lo + hi * 4294967296)

theorem readU16s_consumes (n : Nat) : Consumes (readU16s n) := by
  induction n with
  | zero =>
    intro b v rest h ext
    simp only [readU16s, Option.some.injEq, Prod.mk.injEq] at h
    simp [readU16s, h.1, h.2]
  | succ n ih =>
    exact consumes_bind readU16_consumes fun c =>
      consumes_bind ih fun cs => consumes_pure (c :: cs)

theorem decodeRecord_consumes : Consumes decodeRecord :=
  consumes_bind readU32_consumes fun flags =>
    consumes_bind readU64_consumes fun pct =>
      consumes_bind readU64_consumes fun wt =>
        consumes_bind readU32_consumes fun nameLen =>
          consumes_bind (readU16s_consumes nameLen) fun name =>
            consumes_pure (WireMatch.mk flags pct wt name)

theorem decodeRecords_consumes (n : Nat) : Consumes (decodeRecords n) := by
  induction n with
  | zero =>
    intro b v rest h ext
    simp only [decodeRecords, Option.some.injEq, Prod.mk.injEq] at h
    simp [decodeRecords, h.1, h.2]
  | succ n ih =>
    exact consumes_bind decodeRecord_consumes fun r =>
      consumes_bind ih fun rs => consumes_pure (r :: rs)

theorem decodeResults_consumes : Consumes decodeResults :=
  consumes_bind readU32_consumes fun count => decodeRecords_consumes count

/-! ## The in-process interface, the documented ranges, the external search
contract and the ownership protocol -/

/-- The documented range of `SearchSDK_Match::m_matchPercentage`
(SearchSDK.h line 84: "From 0 to 100"), as a closed rational interval. -/
def inProcessMatchPercentageRange : Set ℚ := Set.Icc 0 100

/-- The documented range of the wire-format `matchPercentage` field
(SearchSDK.h line 48: "match percentage from 0 to 1"). -/
def wireMatchPercentageRange : Set ℚ := Set.Icc 0 1

/-- The in-process `SearchSDK_Match` struct (SearchSDK.h lines 82-87):
a match percentage (a `double`, documented range 0 to 100, modelled as a
rational), the match name (a `wchar_t*` string owned by the library,
modelled as its code units) and the locked flag. -/
structure SearchSDK_Match where
  m_matchPercentage : ℚ
  m_matchName : List Nat
  m_bLocked : Bool
  deriving Repr, DecidableEq

/-- Modelled from the spec: the caller-visible result-filling contract of
`SearchSDK_RunSearchEvenlySpacedFn` (SearchSDK.h lines 106-132). The search
algorithm lives in the external SearchSDK.dll, so only the contract is
modelled: given the matches the engine found and the entry value of the
in/out `pnResults` parameter (the capacity of the `pResults` buffer), the
buffer receives as many results as found, up to capacity, and `pnResults`
receives on exit the number of valid entries, which may be lower than the
capacity passed in. Returns the filled buffer and the exit value of
`pnResults`. -/
def runSearchEvenlySpaced (found : List SearchSDK_Match)
    (nResultsIn : Nat) : List SearchSDK_Match × Nat :=
  (found.take nResultsIn, min found.length nResultsIn)

/-- Modelled from the spec: the caller-visible result-filling contract of
`SearchSDK_RunSearchUnevenlySpacedFn` (SearchSDK.h lines 134-159); the
`pResults`/`pnResults` contract is word-for-word that of the evenly spaced
variant. -/
def runSearchUnevenlySpaced (found : List SearchSDK_Match)
    (nResultsIn : Nat) : List SearchSDK_Match × Nat :=
  (found.take nResultsIn, min found.length nResultsIn)

/-- One step of the result-transfer protocol between KnowItAll (the
producer) and the source application (the consumer), SearchSDK.h
lines 37-55. -/
inductive IPCAction where
  | createFileMapping
  | sendResultsMessage
  | mapViewReadOnly
  | decodeBuffer
  | closeMappingHandle
  deriving DecidableEq, Repr

/-- Modelled from the spec: the consumer side of one delivered result
message (SearchSDK.h lines 37-55): map the region with `FILE_MAP_READ`,
decode it, and nothing else — "Do not call CloseHandle on the file mapping
object when you are done accessing the data." The consumer code lives in
the third-party source application, not in this repository. -/
def consumerResultHandling : List IPCAction :=
  [IPCAction.mapViewReadOnly, IPCAction.decodeBuffer]

/-- Modelled from the spec: the producer side of one result delivery
(SearchSDK.h lines 37-55): KnowItAll creates the file mapping object, sends
the registered window message, and itself closes the mapping handle
("This is done by KnowItAll"). KnowItAll's code is not in this
repository. -/
def producerResultDelivery : List IPCAction :=
  [IPCAction.createFileMapping, IPCAction.sendResultsMessage,
    IPCAction.closeMappingHandle]

/-- Testing one `SEARCHSDK_MATCHFLAG_*` bit in a `matchFlags` word, the way
a consumer of the bit field tests flags: bitwise AND against the
constant. -/
def hasFlag (w flag : Nat) : Bool := w &&& flag != 0

/-- The `matchFlags` word assembled by ORing together the subset of the six
`SEARCHSDK_MATCHFLAG_*` constants selected by the six booleans. -/
def flagsWord (spectral peak composite residual component locked : Bool) :
    Nat :=
  (if spectral then SEARCHSDK_MATCHFLAG_SPECTRALSEARCHRESULT else 0) |||
  (if peak then SEARCHSDK_MATCHFLAG_PEAKSEARCHRESULT else 0) |||
  (if composite then SEARCHSDK_MATCHFLAG_COMPOSITE else 0) |||
  (if residual then SEARCHSDK_MATCHFLAG_RESIDUAL else 0) |||
  (if component then SEARCHSDK_MATCHFLAG_COMPONENT else 0) |||
  (if locked then SEARCHSDK_MATCHFLAG_LOCKED else 0)

/-- The number of bytes a name occupies on the wire: two per UTF-16 code
unit, with no terminator. -/
theorem encodeName_length (name : List Nat) :
    (encodeName name).length = 2 * name.length := by
  induction name with
  | nil => rfl
  | cons c cs ih =>
    simp only [encodeName_cons, List.length_append, List.length_cons, ih,
      encodeU16, List.length_cons, List.length_nil]
    omega

/-! ## Claim theorems -/

/-- C1: for every well-formed buffer that encodes N records in the wire
format, the decoder reads exactly the N records and no more: it returns
precisely the encoded record list and leaves every trailing byte
unconsumed, advancing record by record through the self-describing records
with no terminator or padding between them. -/
theorem decode_reads_exactly_encoded_records (rs : List WireMatch)
    (ext : List Nat) (h : WfResults rs) :
    decodeResults (encodeResults rs ++ ext) = some (rs, ext) :=
  decodeResults_encodeResults rs h ext

theorem decode_reads_exactly_encoded_records_witness :
    WfResults [WireMatch.mk 1 5 7 [72, 105]] ∧
    decodeResults (encodeResults [WireMatch.mk 1 5 7 [72, 105]] ++ [9, 9]) =
      some ([WireMatch.mk 1 5 7 [72, 105]], [9, 9]) :=
  ⟨by decide,
    decode_reads_exactly_encoded_records [WireMatch.mk 1 5 7 [72, 105]]
      [9, 9] (by decide)⟩

/-- C2: decoding is a left inverse of encoding: encoding any well-formed
list of match records and decoding the resulting buffer yields the
identical list — same flags, percentage bits, weight bits and name code
units — with nothing left over. -/
theorem decode_encode_roundtrip (rs : List WireMatch) (h : WfResults rs) :
    decodeResults (encodeResults rs) = some (rs, []) := by
  have hx := decodeResults_encodeResults rs h []
  rwa [List.append_nil] at hx

theorem decode_encode_roundtrip_witness :
    WfResults [WireMatch.mk 3 10 20 [65], WireMatch.mk 32 0 1 []] ∧
    decodeResults (encodeResults
        [WireMatch.mk 3 10 20 [65], WireMatch.mk 32 0 1 []]) =
      some ([WireMatch.mk 3 10 20 [65], WireMatch.mk 32 0 1 []], []) :=
  ⟨by decide,
    decode_encode_roundtrip [WireMatch.mk 3 10 20 [65], WireMatch.mk 32 0 1 []]
      (by decide)⟩

/-- C3: every truncation of an encoded buffer — a buffer holding fewer
bytes than its `resultCount` and per-record `nameCharCount` fields imply —
is rejected by the bounds-checked decoder with `none` instead of being read
past the end. -/
theorem truncated_buffer_rejected (rs : List WireMatch) (m : Nat)
    (h : WfResults rs) (hm : m < (encodeResults rs).length) :
    decodeResults ((encodeResults rs).take m) = none := by
  cases hdec : decodeResults ((encodeResults rs).take m) with
  | none => rfl
  | some p =>
    exfalso
    have hext := decodeResults_consumes _ p.1 p.2 hdec
      ((encodeResults rs).drop m)
    rw [List.take_append_drop] at hext
    have hfull : decodeResults (encodeResults rs) = some (rs, []) := by
      have hx := decodeResults_encodeResults rs h []
      rwa [List.append_nil] at hx
    rw [hfull] at hext
    have hpair := Prod.mk.injEq .. ▸ (Option.some.inj hext)
    have hnil : p.2 ++ (encodeResults rs).drop m = [] := hpair.2.symm
    have hdrop : (encodeResults rs).drop m = [] :=
      (List.append_eq_nil.mp hnil).2
    have hlen : (encodeResults rs).length ≤ m := by
      have := congrArg List.length hdrop
      simp only [List.length_drop, List.length_nil] at this
      omega
    omega

theorem truncated_buffer_rejected_witness :
    WfResults [WireMatch.mk 1 5 7 [72]] ∧
    10 < (encodeResults [WireMatch.mk 1 5 7 [72]]).length ∧
    decodeResults ((encodeResults [WireMatch.mk 1 5 7 [72]]).take 10) =
      none :=
  ⟨by decide, by decide,
    truncated_buffer_rejected [WireMatch.mk 1 5 7 [72]] 10 (by decide)
      (by decide)⟩

/-- C4: the in-process `m_matchPercentage` field is documented with range
0 to 100 while the wire-format `matchPercentage` field is documented with
range 0 to 1: the two interfaces use two different range conventions for
the same quantity. -/
theorem match_percentage_range_conventions_differ :
    inProcessMatchPercentageRange = Set.Icc (0 : ℚ) 100 ∧
    wireMatchPercentageRange = Set.Icc (0 : ℚ) 1 ∧
    inProcessMatchPercentageRange ≠ wireMatchPercentageRange := by
  refine ⟨rfl, rfl, fun he => ?_⟩
  have h2 : (2 : ℚ) ∈ inProcessMatchPercentageRange := by
    simp only [inProcessMatchPercentageRange, Set.mem_Icc]
    norm_num
  rw [he] at h2
  simp only [wireMatchPercentageRange, Set.mem_Icc] at h2
  norm_num at h2

/-- C5: the wire-format `nameCharCount` field of an encoded record equals
the number of UTF-16 code units of the name — not the number of bytes
(which is twice that) and with no terminator counted — and decoding an
encoded record reproduces the name exactly, for arbitrary (including
non-ASCII) code units. -/
theorem name_char_count_is_code_unit_count (r : WireMatch)
    (h : WfWireMatch r) :
    readU32 ((encodeRecord r).drop 20) =
      some (r.name.length, encodeName r.name) ∧
    (encodeName r.name).length = 2 * r.name.length ∧
    decodeRecord (encodeRecord r) = some (r, []) := by
  obtain ⟨h1, h2, h3, h4, h5⟩ := h
  refine ⟨?_, encodeName_length r.name, ?_⟩
  · have hdrop : (encodeRecord r).drop 20 =
        encodeU32 r.name.length ++ encodeName r.name := by
      simp [encodeRecord, encodeU64, encodeU32, encodeU16, List.append_assoc]
    rw [hdrop, readU32_encodeU32, Nat.mod_eq_of_lt h4]
  · have hx := decodeRecord_encodeRecord r ⟨h1, h2, h3, h4, h5⟩ []
    rwa [List.append_nil] at hx

theorem name_char_count_is_code_unit_count_witness :
    WfWireMatch (WireMatch.mk 1 2 3 [0x4E2D, 0x6587, 0x3B1]) ∧
    readU32 ((encodeRecord (WireMatch.mk 1 2 3 [0x4E2D, 0x6587, 0x3B1])).drop
        20) =
      some (3, encodeName [0x4E2D, 0x6587, 0x3B1]) ∧
    (encodeName [0x4E2D, 0x6587, 0x3B1]).length = 2 * 3 ∧
    decodeRecord (encodeRecord (WireMatch.mk 1 2 3 [0x4E2D, 0x6587, 0x3B1])) =
      some (WireMatch.mk 1 2 3 [0x4E2D, 0x6587, 0x3B1], []) :=
  ⟨by decide,
    name_char_count_is_code_unit_count (WireMatch.mk 1 2 3 [0x4E2D, 0x6587, 0x3B1])
      (by decide)⟩

/-- C6: the decoder passes the `matchPercentage` and `componentWeight`
bit patterns through unmodified for every encodable value — including bit
patterns of floating-point values outside [0, 1] — neither clamping them
nor rejecting the record: decoding an encoded record succeeds and returns
exactly the stored 64-bit patterns. -/
theorem out_of_range_values_passed_through (r : WireMatch)
    (h : WfWireMatch r) :
    (decodeRecord (encodeRecord r)).map
        (fun x => (x.1.matchPercentage, x.1.componentWeight)) =
      some (r.matchPercentage, r.componentWeight) := by
  have hx := decodeRecord_encodeRecord r h []
  rw [List.append_nil] at hx
  rw [hx]
  rfl

theorem out_of_range_values_passed_through_witness :
    WfWireMatch (WireMatch.mk 1 0x4000000000000000 0xBFF0000000000000 [88]) ∧
    (decodeRecord (encodeRecord
          (WireMatch.mk 1 0x4000000000000000 0xBFF0000000000000 [88]))).map
        (fun x => (x.1.matchPercentage, x.1.componentWeight)) =
      some (0x4000000000000000, 0xBFF0000000000000) :=
  ⟨by decide,
    out_of_range_values_passed_through
      (WireMatch.mk 1 0x4000000000000000 0xBFF0000000000000 [88]) (by decide)⟩

/-- C7: a buffer whose `resultCount` field is 0 decodes to the empty record
list, consuming exactly the 4 bytes of the count field: every byte placed
after the count field is returned unconsumed. -/
theorem zero_result_count_decodes_empty (ext : List Nat) :
    decodeResults (encodeU32 0 ++ ext) = some ([], ext) ∧
    (encodeU32 0).length = 4 := by
  refine ⟨?_, rfl⟩
  have h : WfResults ([] : List WireMatch) := by decide
  have hx := decodeResults_encodeResults [] h ext
  simpa [encodeResults] using hx

/-- C8: for every successful search call (evenly or unevenly spaced), the
in/out count parameter holds on exit the number of valid results actually
filled into the caller's buffer, and that count never exceeds the capacity
that was passed in. -/
theorem search_reports_filled_count_within_capacity
    (found : List SearchSDK_Match) (nResultsIn : Nat) :
    (runSearchEvenlySpaced found nResultsIn).2 =
      (runSearchEvenlySpaced found nResultsIn).1.length ∧
    (runSearchEvenlySpaced found nResultsIn).2 ≤ nResultsIn ∧
    (runSearchUnevenlySpaced found nResultsIn).2 =
      (runSearchUnevenlySpaced found nResultsIn).1.length ∧
    (runSearchUnevenlySpaced found nResultsIn).2 ≤ nResultsIn := by
  refine ⟨?_, Nat.min_le_right _ _, ?_, Nat.min_le_right _ _⟩ <;>
    simp [runSearchEvenlySpaced, runSearchUnevenlySpaced, List.length_take,
      Nat.min_comm]

/-- C9: in the result-transfer protocol the consumer never releases the
shared-memory mapping handle — its handling of a delivered message is to
map the region read-only and decode it — while the producer's delivery
releases the file-mapping handle exactly once. -/
theorem consumer_never_releases_mapping_handle :
    IPCAction.closeMappingHandle ∉ consumerResultHandling ∧
    producerResultDelivery.count IPCAction.closeMappingHandle = 1 := by
  decide

/-- C10: the six `SEARCHSDK_MATCHFLAG_*` constants are the six distinct
single-bit values 2^0 through 2^5, so ORing any subset of them into a
`matchFlags` word loses no information: each flag's presence is recovered
independently by ANDing the word with that constant. -/
theorem matchflags_single_bit_distinct_lossless :
    SEARCHSDK_MATCHFLAG_SPECTRALSEARCHRESULT = 2 ^ 0 ∧
    SEARCHSDK_MATCHFLAG_PEAKSEARCHRESULT = 2 ^ 1 ∧
    SEARCHSDK_MATCHFLAG_COMPOSITE = 2 ^ 2 ∧
    SEARCHSDK_MATCHFLAG_RESIDUAL = 2 ^ 3 ∧
    SEARCHSDK_MATCHFLAG_COMPONENT = 2 ^ 4 ∧
    SEARCHSDK_MATCHFLAG_LOCKED = 2 ^ 5 ∧
    [SEARCHSDK_MATCHFLAG_SPECTRALSEARCHRESULT,
      SEARCHSDK_MATCHFLAG_PEAKSEARCHRESULT,
      SEARCHSDK_MATCHFLAG_COMPOSITE,
      SEARCHSDK_MATCHFLAG_RESIDUAL,
      SEARCHSDK_MATCHFLAG_COMPONENT,
      SEARCHSDK_MATCHFLAG_LOCKED].Pairwise (· ≠ ·) ∧
    ∀ b1 b2 b3 b4 b5 b6 : Bool,
      hasFlag (flagsWord b1 b2 b3 b4 b5 b6)
          SEARCHSDK_MATCHFLAG_SPECTRALSEARCHRESULT = b1 ∧
      hasFlag (flagsWord b1 b2 b3 b4 b5 b6)
          SEARCHSDK_MATCHFLAG_PEAKSEARCHRESULT = b2 ∧
      hasFlag (flagsWord b1 b2 b3 b4 b5 b6)
          SEARCHSDK_MATCHFLAG_COMPOSITE = b3 ∧
      hasFlag (flagsWord b1 b2 b3 b4 b5 b6)
          SEARCHSDK_MATCHFLAG_RESIDUAL = b4 ∧
      hasFlag (flagsWord b1 b2 b3 b4 b5 b6)
          SEARCHSDK_MATCHFLAG_COMPONENT = b5 ∧
      hasFlag (flagsWord b1 b2 b3 b4 b5 b6)
          SEARCHSDK_MATCHFLAG_LOCKED = b6 := by
  decide

end SearchSDK
